import Mathlib

/-!
Verification of the flux image-generation pipeline (flux_generator.py)
against its natural-language specification.

The Python source is shallowly embedded: request payloads (Python dicts)
become association lists over a value type, Python truthiness is modelled
explicitly, the remote service and HTTP layer become oracle functions, and
the event loop for a batch becomes an explicit list of per-request outcomes
in completion order.
-/

namespace Flux

/-- Values stored in a request payload (a Python dict sent as JSON):
strings, integers, floats (modelled as rationals), booleans, and the
nested size object with width and height fields. -/
inductive Val where
  | str (s : String)
  | int (n : Int)
  | rat (q : ℚ)
  | bool (b : Bool)
  | size (w h : Int)
  deriving DecidableEq, Repr

/-- A request payload: an insertion-ordered key/value mapping, as a Python
dict is. -/
abbrev Payload := List (String × Val)

/-- Python dict assignment d[k] = v: replace the value if the key is
present, otherwise append the pair, preserving insertion order. -/
def dictSet {β : Type} (d : List (String × β)) (k : String) (v : β) :
    List (String × β) :=
  if d.any (fun p => p.1 = k) then
    d.map (fun p => if p.1 = k then (k, v) else p)
  else
    d ++ [(k, v)]

/-- Python dict read d.get(k): the value stored at the first (and in our
payloads only) occurrence of the key. -/
def getVal {β : Type} : List (String × β) → String → Option β
  | [], _ => none
  | p :: rest, key => if p.1 = key then some p.2 else getVal rest key

/-- Python truthiness of an optional string: None and the empty string are
falsy. -/
def truthyStr : Option String → Bool
  | none => false
  | some s => s ≠ ""

/-- Python truthiness of an optional integer: None and 0 are falsy. -/
def truthyInt : Option Int → Bool
  | none => false
  | some n => n ≠ 0

/-- Embedding of build_base_args: the base payload holds the prompt and a
fixed image count of 1; output format and safety tolerance are added when
truthy, the safety-checker and sync flags when not None. -/
def build_base_args (prompt : String) (out_fmt : Option String)
    (safety : Option String) (safety_check : Option Bool)
    (sync : Option Bool) : Payload :=
  let args : Payload := [("prompt", Val.str prompt), ("num_images", Val.int 1)]
  let args := if truthyStr out_fmt then
      dictSet args "output_format" (Val.str (out_fmt.getD "")) else args
  let args := if truthyStr safety then
      dictSet args "safety_tolerance" (Val.str (safety.getD "")) else args
  let args := match safety_check with
    | some b => dictSet args "enable_safety_checker" (Val.bool b)
    | none => args
  match sync with
  | some b => dictSet args "sync_mode" (Val.bool b)
  | none => args

/-- Embedding of add_ultra_args: aspect ratio when truthy, and the raw flag
only when it is true. -/
def add_ultra_args (args : Payload) (ratio : Option String) (raw : Bool) :
    Payload :=
  let args := if truthyStr ratio then
      dictSet args "aspect_ratio" (Val.str (ratio.getD "")) else args
  if raw then dictSet args "raw" (Val.bool raw) else args

/-- Embedding of add_pro_args: image_size is the width/height object when
both are not None (checked with `is not None`, so 0 counts as present),
else the preset string when truthy; guidance scale and inference steps are
added when not None. -/
def add_pro_args (args : Payload) (size : Option String) (w h : Option Int)
    (guidance : Option ℚ) (steps : Option Int) : Payload :=
  let args := if w.isSome ∧ h.isSome then
      dictSet args "image_size" (Val.size (w.getD 0) (h.getD 0))
    else if truthyStr size then
      dictSet args "image_size" (Val.str (size.getD ""))
    else args
  let args := match guidance with
    | some g => dictSet args "guidance_scale" (Val.rat g)
    | none => args
  match steps with
  | some n => dictSet args "num_inference_steps" (Val.int n)
  | none => args

/-- The option fields consumed by validate_pro_args: guidance scale,
inference steps, width, height. -/
structure ProArgs where
  g : Option ℚ
  i : Option Int
  w : Option Int
  height : Option Int
  deriving DecidableEq, Repr

def guidanceMsg : String := "guidance must be between 1 and 20"
def stepsMsg : String := "steps must be between 1 and 50"
def pairMsg : String := "Both -w and --height must be provided together"
def dimMsg : String := "dimensions must be between 256 and 14142"

/-- Embedding of validate_pro_args with the exact check order of the
source: guidance range, steps range, the bool(w) != bool(height) pair
check (Python truthiness: 0 is falsy), then the dimension range check
guarded by `if args.w and args.height` (again truthiness). -/
def validate_pro_args (a : ProArgs) : Except String Unit :=
  if a.g.isSome ∧ ¬(1 ≤ a.g.getD 0 ∧ a.g.getD 0 ≤ 20) then
    Except.error guidanceMsg
  else if a.i.isSome ∧ ¬(1 ≤ a.i.getD 0 ∧ a.i.getD 0 ≤ 50) then
    Except.error stepsMsg
  else if truthyInt a.w ≠ truthyInt a.height then
    Except.error pairMsg
  else if (truthyInt a.w ∧ truthyInt a.height) ∧
      ¬(256 ≤ a.w.getD 0 ∧ a.w.getD 0 ≤ 14142 ∧
        256 ≤ a.height.getD 0 ∧ a.height.getD 0 ≤ 14142) then
    Except.error dimMsg
  else
    Except.ok ()

theorem getVal_map_replace {β : Type} (d : List (String × β)) (k : String) (v : β) :
    getVal (d.map (fun p => if p.1 = k then (k, v) else p)) k =
      if d.any (fun p => p.1 = k) then some v else getVal d k := by
  induction d with
  | nil => simp [getVal]
  | cons p rest ih =>
    by_cases hp : p.1 = k
    · simp [getVal, hp]
    · have hd : decide (p.1 = k) = false := by simpa using hp
      simp only [List.map_cons, List.any_cons, hd, Bool.false_or]
      simp [getVal, hp, ih]

theorem getVal_map_replace_ne {β : Type} (d : List (String × β)) (k k' : String) (v : β)
    (hk : k ≠ k') :
    getVal (d.map (fun p => if p.1 = k' then (k', v) else p)) k =
      getVal d k := by
  induction d with
  | nil => simp [getVal]
  | cons p rest ih =>
    by_cases hp : p.1 = k'
    · simp [getVal, hp, Ne.symm hk, ih]
    · simp [getVal, hp, ih]

theorem getVal_append_single_ne {β : Type} (d : List (String × β)) (k k' : String) (v : β)
    (hk : k ≠ k') : getVal (d ++ [(k', v)]) k = getVal d k := by
  induction d with
  | nil => simp [getVal, Ne.symm hk]
  | cons p rest ih =>
    by_cases hp : p.1 = k
    · simp [getVal, hp]
    · simp [getVal, hp, ih]

theorem getVal_append_single_absent {β : Type} (d : List (String × β)) (k : String) (v : β)
    (h : d.any (fun p => p.1 = k) = false) :
    getVal (d ++ [(k, v)]) k = some v := by
  induction d with
  | nil => simp [getVal]
  | cons p rest ih =>
    simp only [List.any_cons, Bool.or_eq_false_iff, decide_eq_false_iff_not] at h
    simp [getVal, h.1, ih (by simpa using h.2)]

theorem getVal_dictSet_self {β : Type} (d : List (String × β)) (k : String) (v : β) :
    getVal (dictSet d k v) k = some v := by
  unfold dictSet
  by_cases hc : d.any (fun p => p.1 = k) = true
  · rw [if_pos hc, getVal_map_replace, if_pos hc]
  · rw [if_neg hc, getVal_append_single_absent]
    exact Bool.not_eq_true _ ▸ hc

theorem getVal_dictSet_ne {β : Type} (d : List (String × β)) (k k' : String) (v : β)
    (hk : k ≠ k') : getVal (dictSet d k' v) k = getVal d k := by
  unfold dictSet
  split
  · exact getVal_map_replace_ne d k k' v hk
  · exact getVal_append_single_ne d k k' v hk

/-- Spec-side predicate: a guidance value is present and lies outside
the interval from 1 to 20. -/
def guidanceOutOfRange (a : ProArgs) : Prop :=
  ∃ g, a.g = some g ∧ (g < 1 ∨ 20 < g)

/-- Spec-side predicate: a steps value is present and lies outside the
interval from 1 to 50. -/
def stepsOutOfRange (a : ProArgs) : Prop :=
  ∃ n, a.i = some n ∧ (n < 1 ∨ 50 < n)

/-- Spec-side predicate: width and height are both present and at least
one lies outside the interval from 256 to 14142. -/
def dimsOutOfRange (a : ProArgs) : Prop :=
  ∃ wv hv, a.w = some wv ∧ a.height = some hv ∧
    (wv < 256 ∨ 14142 < wv ∨ hv < 256 ∨ 14142 < hv)

/-- Spec-side predicate: exactly one of width and height is truthy
(nonzero and present), which is what the bool(w) != bool(height) check of
the source tests. -/
def pairMismatch (a : ProArgs) : Prop :=
  truthyInt a.w ≠ truthyInt a.height

/-- A validation result is one of the three OutOfRange failures. -/
def outOfRangeRes (e : Except String Unit) : Prop :=
  e = Except.error guidanceMsg ∨ e = Except.error stepsMsg ∨
    e = Except.error dimMsg

theorem guidance_cond_iff (a : ProArgs) :
    (a.g.isSome ∧ ¬(1 ≤ a.g.getD 0 ∧ a.g.getD 0 ≤ 20)) ↔
      guidanceOutOfRange a := by
  cases hg : a.g with
  | none => simp [guidanceOutOfRange, hg]
  | some g =>
    simp only [guidanceOutOfRange, hg, Option.isSome_some, Option.getD_some,
      true_and, Option.some.injEq, exists_eq_left', not_and, not_le]
    exact ⟨fun h => (lt_or_le g 1).imp id (fun h1 => h h1),
      fun h h1 => h.resolve_left (not_lt.2 h1)⟩

theorem steps_cond_iff (a : ProArgs) :
    (a.i.isSome ∧ ¬(1 ≤ a.i.getD 0 ∧ a.i.getD 0 ≤ 50)) ↔
      stepsOutOfRange a := by
  cases hi : a.i with
  | none => simp [stepsOutOfRange, hi]
  | some n =>
    simp only [stepsOutOfRange, hi, Option.isSome_some, Option.getD_some,
      true_and, Option.some.injEq, exists_eq_left', not_and, not_le]
    omega

theorem truthyInt_eq_true_iff (o : Option Int) :
    truthyInt o = true ↔ ∃ n, o = some n ∧ n ≠ 0 := by
  cases o with
  | none => simp [truthyInt]
  | some n => simp [truthyInt]

theorem dims_cond_iff (a : ProArgs)
    (hw : truthyInt a.w = true) (hh : truthyInt a.height = true) :
    (¬(256 ≤ a.w.getD 0 ∧ a.w.getD 0 ≤ 14142 ∧
        256 ≤ a.height.getD 0 ∧ a.height.getD 0 ≤ 14142)) ↔
      dimsOutOfRange a := by
  obtain ⟨wv, hwv, -⟩ := (truthyInt_eq_true_iff a.w).1 hw
  obtain ⟨hv, hhv, -⟩ := (truthyInt_eq_true_iff a.height).1 hh
  simp only [dimsOutOfRange, hwv, hhv, Option.getD_some, Option.some.injEq,
    exists_eq_left', not_and, not_le,
    exists_and_left, exists_eq_left]
  omega

/-- C2 (amended): validation fails with an OutOfRange error exactly when a
present guidance value is outside 1..20, or a present steps value is
outside 1..50, or width and height are both truthy (present and nonzero,
Python truthiness) with matching truthiness and either outside 256..14142;
it fails with MissingPair exactly when guidance and steps pass and exactly
one of width/height is truthy; it returns normally exactly when none of
these hold. In particular boundary values pass. -/
theorem validate_pro_args_characterization (a : ProArgs) :
    (outOfRangeRes (validate_pro_args a) ↔
      guidanceOutOfRange a ∨ stepsOutOfRange a ∨
        (¬pairMismatch a ∧ truthyInt a.w = true ∧ dimsOutOfRange a)) ∧
    (validate_pro_args a = Except.error pairMsg ↔
      ¬guidanceOutOfRange a ∧ ¬stepsOutOfRange a ∧ pairMismatch a) ∧
    (validate_pro_args a = Except.ok () ↔
      ¬guidanceOutOfRange a ∧ ¬stepsOutOfRange a ∧ ¬pairMismatch a ∧
        ¬(truthyInt a.w = true ∧ dimsOutOfRange a)) := by
  unfold validate_pro_args
  split_ifs with h1 h2 h3 h4
  · have hg : guidanceOutOfRange a := (guidance_cond_iff a).1 h1
    refine ⟨?_, ?_, ?_⟩
    · exact iff_of_true (Or.inl rfl) (Or.inl hg)
    · exact iff_of_false (by simp [guidanceMsg, pairMsg]) (fun h => h.1 hg)
    · exact iff_of_false (by simp) (fun h => h.1 hg)
  · have hg' : ¬guidanceOutOfRange a := fun h => h1 ((guidance_cond_iff a).2 h)
    have hs : stepsOutOfRange a := (steps_cond_iff a).1 h2
    refine ⟨?_, ?_, ?_⟩
    · exact iff_of_true (Or.inr (Or.inl rfl)) (Or.inr (Or.inl hs))
    · exact iff_of_false (by simp [stepsMsg, pairMsg]) (fun h => h.2.1 hs)
    · exact iff_of_false (by simp) (fun h => h.2.1 hs)
  · have hg' : ¬guidanceOutOfRange a := fun h => h1 ((guidance_cond_iff a).2 h)
    have hs' : ¬stepsOutOfRange a := fun h => h2 ((steps_cond_iff a).2 h)
    refine ⟨?_, ?_, ?_⟩
    · refine iff_of_false (by simp [outOfRangeRes, pairMsg, guidanceMsg, stepsMsg, dimMsg]) ?_
      rintro (hg | hs | ⟨hnp, -, -⟩)
      · exact hg' hg
      · exact hs' hs
      · exact hnp h3
    · exact iff_of_true rfl ⟨hg', hs', h3⟩
    · exact iff_of_false (by simp) (fun h => h.2.2.1 h3)
  · have hg' : ¬guidanceOutOfRange a := fun h => h1 ((guidance_cond_iff a).2 h)
    have hs' : ¬stepsOutOfRange a := fun h => h2 ((steps_cond_iff a).2 h)
    have hw : truthyInt a.w = true := h4.1.1
    have hh : truthyInt a.height = true := h4.1.2
    have hd : dimsOutOfRange a := (dims_cond_iff a hw hh).1 h4.2
    refine ⟨?_, ?_, ?_⟩
    · exact iff_of_true (Or.inr (Or.inr rfl)) (Or.inr (Or.inr ⟨h3, hw, hd⟩))
    · exact iff_of_false (by simp [dimMsg, pairMsg]) (fun h => h3 h.2.2)
    · exact iff_of_false (by simp) (fun h => h.2.2.2 ⟨hw, hd⟩)
  · have hg' : ¬guidanceOutOfRange a := fun h => h1 ((guidance_cond_iff a).2 h)
    have hs' : ¬stepsOutOfRange a := fun h => h2 ((steps_cond_iff a).2 h)
    have hnd : ¬(truthyInt a.w = true ∧ dimsOutOfRange a) := by
      rintro ⟨hw, hd⟩
      have hh : truthyInt a.height = true := by
        have heq := not_ne_iff.1 h3
        rw [← heq, hw]
      exact h4 ⟨⟨hw, hh⟩, (dims_cond_iff a hw hh).2 hd⟩
    refine ⟨?_, ?_, ?_⟩
    · refine iff_of_false (by simp [outOfRangeRes]) ?_
      rintro (hg | hs | ⟨-, hw, hd⟩)
      · exact hg' hg
      · exact hs' hs
      · exact hnd ⟨hw, hd⟩
    · exact iff_of_false (by simp) (fun h => h3 h.2.2)
    · exact iff_of_true rfl ⟨hg', hs', h3, hnd⟩

/-- C2 counterexample: on width = 0 and height = 0 (both supplied, both
outside the range 256..14142) the validator returns normally, because
Python truthiness treats the value 0 like an absent value, while the claim
requires an OutOfRange failure. -/
theorem validate_pro_args_zero_dims_counterexample :
    (ProArgs.mk none none (some 0) (some 0)).w = some 0 ∧
    (ProArgs.mk none none (some 0) (some 0)).height = some 0 ∧
    ((0 : Int) < 256 ∨ 14142 < (0 : Int)) ∧
    validate_pro_args (ProArgs.mk none none (some 0) (some 0)) =
      Except.ok () := by
  refine ⟨rfl, rfl, Or.inl (by norm_num), ?_⟩
  rfl

/-- C3 (amended): the image_size key of the extended payload is the
width/height object when both dimensions are present, the preset string
when not both dimensions are present and the preset is truthy, and absent
otherwise; in particular it can be absent although a lone dimension was
supplied. The two forms never coexist since a dict key holds one value. -/
theorem add_pro_args_image_size_spec (args : Payload) (size : Option String)
    (w h : Option Int) (guidance : Option ℚ) (steps : Option Int)
    (hargs : getVal args "image_size" = none) :
    ((w.isSome ∧ h.isSome) →
      getVal (add_pro_args args size w h guidance steps) "image_size" =
        some (Val.size (w.getD 0) (h.getD 0))) ∧
    (¬(w.isSome ∧ h.isSome) → truthyStr size = true →
      getVal (add_pro_args args size w h guidance steps) "image_size" =
        some (Val.str (size.getD ""))) ∧
    (¬(w.isSome ∧ h.isSome) → truthyStr size = false →
      getVal (add_pro_args args size w h guidance steps) "image_size" =
        none) := by
  unfold add_pro_args
  rcases steps with _ | n <;> rcases guidance with _ | g <;>
    refine ⟨fun hwh => ?_, fun hwh hsz => ?_, fun hwh hsz => ?_⟩ <;>
    simp only [getVal_dictSet_ne _ "image_size" "num_inference_steps" _
        (by decide),
      getVal_dictSet_ne _ "image_size" "guidance_scale" _ (by decide)] <;>
    first
      | rw [if_pos hwh, getVal_dictSet_self]
      | rw [if_neg hwh, if_pos hsz, getVal_dictSet_self]
      | rw [if_neg hwh, if_neg (by simp [hsz]), hargs]

/-- Witness for the amended C3 theorem at concrete inputs. -/
theorem add_pro_args_image_size_spec_witness :
    getVal (add_pro_args (build_base_args "p" none none none none) none
        (some 512) (some 512) none none) "image_size" =
      some (Val.size 512 512) :=
  (add_pro_args_image_size_spec (build_base_args "p" none none none none)
    none (some 512) (some 512) none none rfl).1 ⟨rfl, rfl⟩

/-- C3 counterexample: with width supplied alone and no preset, the
payload has no image_size key although a sizing input exists, contrary to
the claim that image_size is present whenever any sizing input exists. -/
theorem add_pro_args_lone_width_counterexample :
    (some 512 : Option Int).isSome = true ∧
    getVal (add_pro_args (build_base_args "p" none none none none) none
        (some 512) none none none) "image_size" = none := by
  exact ⟨rfl, rfl⟩

/-- C7 (amended): the base payload always carries the prompt and image
count 1; the output-format and safety-tolerance keys are present exactly
when the option is truthy (non-absent and non-empty), carrying the given
string; the safety-checker and sync-mode keys are present exactly when the
option is not None, carrying the given boolean; and the high-fidelity
extender writes the raw key exactly when the raw flag is true, never as
false. -/
theorem base_payload_keys_spec (prompt : String) (o s : Option String)
    (sc sy : Option Bool) (ratio : Option String) (raw : Bool) :
    getVal (build_base_args prompt o s sc sy) "prompt" =
      some (Val.str prompt) ∧
    getVal (build_base_args prompt o s sc sy) "num_images" =
      some (Val.int 1) ∧
    getVal (build_base_args prompt o s sc sy) "output_format" =
      (if truthyStr o then some (Val.str (o.getD "")) else none) ∧
    getVal (build_base_args prompt o s sc sy) "safety_tolerance" =
      (if truthyStr s then some (Val.str (s.getD "")) else none) ∧
    getVal (build_base_args prompt o s sc sy) "enable_safety_checker" =
      sc.map Val.bool ∧
    getVal (build_base_args prompt o s sc sy) "sync_mode" =
      sy.map Val.bool ∧
    getVal (add_ultra_args (build_base_args prompt o s sc sy) ratio raw)
        "raw" =
      (if raw then some (Val.bool true) else none) := by
  unfold build_base_args add_ultra_args
  rcases sc with _ | b1 <;> rcases sy with _ | b2 <;>
    by_cases h1 : truthyStr o = true <;> by_cases h2 : truthyStr s = true <;>
    by_cases h3 : truthyStr ratio = true <;> cases raw <;>
      simp [h1, h2, h3, getVal_dictSet_self, getVal_dictSet_ne, getVal]

/-- C7 counterexample: an empty output-format string is a non-absent
option, yet the base payload omits the output_format key, contrary to the
claimed present-iff-non-absent equivalence (Python truthiness treats the
empty string like an absent value). -/
theorem build_base_args_empty_format_counterexample :
    (some "" : Option String) ≠ none ∧
    getVal (build_base_args "p" (some "") none none none) "output_format" =
      none := by
  exact ⟨by simp, rfl⟩

/-- One task payload of generate_images: a copy of the base payload with
the derived sub-seed seed + i written when a seed is supplied. -/
def buildTaskArgs (base : Payload) (seed : Option Int) (i : ℕ) : Payload :=
  match seed with
  | some sv => dictSet base "seed" (Val.int (sv + i))
  | none => base

/-- The task payloads issued by generate_images, in index order. -/
def buildTasks (base : Payload) (seed : Option Int) (count : ℕ) :
    List Payload :=
  (List.range count).map (buildTaskArgs base seed)

/-- One step of the awaiting loop of generate_images: a success is
appended to the result list, a failure is caught and counted. -/
def batchStep (acc : List Payload × ℕ) (o : Except String Payload) :
    List Payload × ℕ :=
  match o with
  | Except.ok d => (acc.1 ++ [d], acc.2)
  | Except.error _ => (acc.1, acc.2 + 1)

/-- Embedding of the awaiting loop of generate_images over the request
outcomes listed in completion order: returns the accumulated successful
results and the failure counter. Exceptions are data here — every outcome,
also a failing one, is consumed by the fold and the function returns
normally. -/
def generate_images (outcomes : List (Except String Payload)) :
    List Payload × ℕ :=
  outcomes.foldl batchStep ([], 0)

/-- An outcome that the orchestrator counts as failed. -/
def failedOutcome : Except String Payload → Bool
  | Except.ok _ => false
  | Except.error _ => true

theorem generate_images_foldl (outcomes : List (Except String Payload))
    (res : List Payload) (n : ℕ) :
    outcomes.foldl batchStep (res, n) =
      (res ++ outcomes.filterMap Except.toOption,
        n + outcomes.countP failedOutcome) := by
  induction outcomes generalizing res n with
  | nil => simp
  | cons o rest ih =>
    cases o with
    | ok d =>
      simp [batchStep, ih, Except.toOption, failedOutcome]
    | error e =>
      simp only [List.foldl_cons, batchStep, ih, List.filterMap_cons,
        Except.toOption, List.countP_cons, failedOutcome, if_true]
      have harith : n + 1 + List.countP failedOutcome rest =
          n + (List.countP failedOutcome rest + 1) := by omega
      rw [harith]

theorem filterMap_toOption_length (outcomes : List (Except String Payload)) :
    (outcomes.filterMap Except.toOption).length +
      outcomes.countP failedOutcome = outcomes.length := by
  induction outcomes with
  | nil => simp
  | cons o rest ih =>
    cases o with
    | ok d =>
      simp only [List.filterMap_cons, Except.toOption, List.countP_cons,
        failedOutcome, List.length_cons, if_false, if_true]
      simp only [show ((false = true) = False) from by simp, if_false]
      omega
    | error e =>
      simp only [List.filterMap_cons, Except.toOption, List.countP_cons,
        failedOutcome, List.length_cons, if_false, if_true]
      omega

/-- C1: for a batch of count requests, request i carries the sub-seed
seed + i when a seed is supplied; every per-request failure is consumed
inside the loop and only counted, so the orchestrator returns normally
with exactly the successful results in completion order, and with k
failures out of count outcomes the returned list has length count - k. -/
theorem generate_images_batch_spec (base : Payload) (sv : Int) (count : ℕ)
    (outcomes : List (Except String Payload))
    (hlen : outcomes.length = count) :
    (∀ i, i < count →
      (buildTasks base (some sv) count)[i]? =
        some (buildTaskArgs base (some sv) i) ∧
      getVal (buildTaskArgs base (some sv) i) "seed" =
        some (Val.int (sv + i))) ∧
    (generate_images outcomes).1 = outcomes.filterMap Except.toOption ∧
    (generate_images outcomes).2 = outcomes.countP failedOutcome ∧
    (generate_images outcomes).1.length =
      count - outcomes.countP failedOutcome := by
  refine ⟨?_, ?_, ?_, ?_⟩
  · intro i hi
    constructor
    · simp [buildTasks, List.getElem?_map, List.getElem?_range hi]
    · simp [buildTaskArgs, getVal_dictSet_self]
  · simp [generate_images, generate_images_foldl]
  · simp [generate_images, generate_images_foldl]
  · have h := filterMap_toOption_length outcomes
    simp only [generate_images, generate_images_foldl, List.nil_append]
    omega

/-- Witness for the C1 theorem: a batch of 3 with one failure returns 2
results, counts 1 failure, and task 1 carries seed 7 + 1. -/
theorem generate_images_batch_spec_witness :
    getVal (buildTaskArgs [("prompt", Val.str "a")] (some 7) 1) "seed" =
      some (Val.int 8) ∧
    (generate_images [Except.ok [("prompt", Val.str "a")],
        Except.error "boom",
        Except.ok [("prompt", Val.str "a")]]).1.length = 3 - 1 :=
  ⟨by
      have h := (generate_images_batch_spec [("prompt", Val.str "a")] 7 3
        [Except.ok [("prompt", Val.str "a")], Except.error "boom",
          Except.ok [("prompt", Val.str "a")]] rfl).1 1 (by norm_num)
      simpa using h.2,
    by
      have h := (generate_images_batch_spec [("prompt", Val.str "a")] 7 3
        [Except.ok [("prompt", Val.str "a")], Except.error "boom",
          Except.ok [("prompt", Val.str "a")]] rfl).2.2.2
      simpa using h⟩

/-- URLs and file paths are modelled as character lists, so that the
splitting done by the filename derivation is fully executable. -/
abbrev Url := List Char

/-- Embedding of download_image, with the HTTP layer abstracted into a
status oracle: the destination name on status 200, nothing otherwise; a
failed fetch is data, never an exception. -/
def download_image (status : Url → ℕ) (url fname : Url) : Option Url :=
  if status url = 200 then some fname else none

/-- Embedding of download_all_images: one gathered fetch per (url, fname)
pair, outcomes kept in input order. -/
def download_all_images (status : Url → ℕ)
    (urls_and_files : List (Url × Url)) : List (Option Url) :=
  urls_and_files.map (fun p => download_image status p.1 p.2)

/-- C4 (amended): the concurrent download of N pairs returns exactly N
outcomes, outcome i belonging to input pair i; each single fetch yields
the destination path exactly on HTTP status 200 and an absent value on
every other status (also on the other 2xx statuses), without raising and
independently of its siblings. -/
theorem download_all_images_spec (status : Url → ℕ)
    (urls_and_files : List (Url × Url)) :
    (download_all_images status urls_and_files).length =
      urls_and_files.length ∧
    (∀ i : ℕ, (download_all_images status urls_and_files)[i]? =
      (urls_and_files[i]?).map (fun p => download_image status p.1 p.2)) ∧
    (∀ url fname : Url,
      (download_image status url fname = some fname ↔ status url = 200) ∧
      (download_image status url fname = none ↔ status url ≠ 200)) := by
  refine ⟨by simp [download_all_images], ?_, ?_⟩
  · intro i
    simp [download_all_images, List.getElem?_map]
  · intro url fname
    unfold download_image
    by_cases h : status url = 200 <;> simp [h]

/-- C4 counterexample: HTTP status 201 is a 2xx success status, yet the
fetch yields an absent outcome, because the source compares the status to
200 exactly. -/
theorem download_image_status201_counterexample :
    (200 ≤ 201 ∧ 201 < 300) ∧
    download_image (fun _ => 201) [] [] = none := by
  exact ⟨⟨by norm_num, by norm_num⟩, rfl⟩

/-- The three remote calls used by the poll protocol, as oracles: submit
returns a request handle, statusOf gives the status string observed by the
k-th status query for a handle, resultOf fetches the final result. -/
structure FalEnv (α : Type) where
  submit : Payload → ℕ
  statusOf : ℕ → ℕ → String
  resultOf : ℕ → α

/-- The polling loop of submit_request, fuel-indexed: at query k, when the
status reports completion the final result is fetched and returned
together with the total time slept so far (poll seconds after each of the
k unsuccessful queries); otherwise the loop sleeps and repeats. Exhausted
fuel means the loop has not returned within that many queries. -/
def pollLoop {α : Type} (status : ℕ → String) (result : α) (poll : ℕ) :
    ℕ → ℕ → Option (α × ℕ)
  | _, 0 => none
  | k, fuel + 1 =>
    if status k = "COMPLETED" then some (result, poll * k)
    else pollLoop status result poll (k + 1) fuel

/-- Embedding of submit_request: submit the payload once to obtain a
handle, then poll that handle's status until completion. -/
def submit_request {α : Type} (env : FalEnv α) (args : Payload)
    (poll fuel : ℕ) : Option (α × ℕ) :=
  pollLoop (env.statusOf (env.submit args)) (env.resultOf (env.submit args))
    poll 0 fuel

theorem pollLoop_completes {α : Type} (status : ℕ → String) (result : α)
    (poll : ℕ) :
    ∀ (n start fuel : ℕ), status (start + n) = "COMPLETED" →
      (∀ m, m < n → status (start + m) ≠ "COMPLETED") → n < fuel →
      pollLoop status result poll start fuel =
        some (result, poll * (start + n)) := by
  intro n
  induction n with
  | zero =>
    intro start fuel hc _ hf
    match fuel, hf with
    | fuel + 1, _ =>
      simp only [pollLoop]
      rw [if_pos (by simpa using hc), Nat.add_zero]
  | succ n ih =>
    intro start fuel hc hprev hf
    match fuel, hf with
    | fuel + 1, hf =>
      simp only [pollLoop]
      rw [if_neg (by simpa using hprev 0 (Nat.succ_pos n))]
      have hc' : status (start + 1 + n) = "COMPLETED" := by
        rw [show start + 1 + n = start + (n + 1) by omega]
        exact hc
      have hprev' : ∀ m, m < n → status (start + 1 + m) ≠ "COMPLETED" := by
        intro m hm
        rw [show start + 1 + m = start + (m + 1) by omega]
        exact hprev (m + 1) (by omega)
      have := ih (start + 1) fuel hc' hprev' (by omega)
      rw [this, show start + 1 + n = start + (n + 1) by omega]

theorem pollLoop_no_completion {α : Type} (status : ℕ → String)
    (result : α) (poll : ℕ)
    (h : ∀ n, status n ≠ "COMPLETED") :
    ∀ (fuel start : ℕ), pollLoop status result poll start fuel = none := by
  intro fuel
  induction fuel with
  | zero => intro start; rfl
  | succ fuel ih =>
    intro start
    simp only [pollLoop]
    rw [if_neg (h start)]
    exact ih (start + 1)

/-- C8: the poll dispatcher submits once for a handle and then polls; if
the n-th status query is the first to report completion, then for any
sufficient fuel it returns the fetched final result having slept the poll
interval after each of the n unsuccessful queries; and if no query ever
reports completion it never returns (none at every fuel: no deadline). -/
theorem submit_request_poll_spec {α : Type} (env : FalEnv α)
    (args : Payload) (poll : ℕ) :
    (∀ n, env.statusOf (env.submit args) n = "COMPLETED" →
      (∀ m, m < n → env.statusOf (env.submit args) m ≠ "COMPLETED") →
      ∀ fuel, n < fuel →
        submit_request env args poll fuel =
          some (env.resultOf (env.submit args), poll * n)) ∧
    ((∀ n, env.statusOf (env.submit args) n ≠ "COMPLETED") →
      ∀ fuel, submit_request env args poll fuel = none) := by
  constructor
  · intro n hc hprev fuel hf
    have := pollLoop_completes (env.statusOf (env.submit args))
      (env.resultOf (env.submit args)) poll n 0 fuel
      (by simpa using hc) (by simpa using hprev) hf
    simpa [submit_request] using this
  · intro h fuel
    exact pollLoop_no_completion _ _ _ h fuel 0

/-- Witness for the C8 theorem: a status stream that completes at the
second query makes the dispatcher return the result 42 after one sleep of
2 seconds; fuel 5 suffices. -/
theorem submit_request_poll_spec_witness :
    submit_request
      (FalEnv.mk (fun _ => 0)
        (fun _ k => if k = 0 then "IN_PROGRESS" else "COMPLETED")
        (fun _ => (42 : ℕ))) [] 2 5 = some (42, 2 * 1) :=
  (submit_request_poll_spec
    (FalEnv.mk (fun _ => 0)
      (fun _ k => if k = 0 then "IN_PROGRESS" else "COMPLETED")
      (fun _ => (42 : ℕ))) [] 2).1 1 rfl
    (by
      intro m hm
      have hm0 : m = 0 := by omega
      subst hm0
      simp)
    5 (by norm_num)

/-- Python str.split with a one-character separator: the parts between
separator occurrences, empty parts kept, never the empty list. -/
def pySplit (sep : Char) : List Char → List (List Char)
  | [] => [[]]
  | c :: rest =>
    match pySplit sep rest with
    | [] => [[]]
    | t :: ts => if c = sep then [] :: t :: ts else (c :: t) :: ts

theorem pySplit_cons (sep c : Char) (rest t : List Char)
    (ts : List (List Char)) (hpr : pySplit sep rest = t :: ts) :
    pySplit sep (c :: rest) =
      if c = sep then [] :: t :: ts else (c :: t) :: ts := by
  unfold pySplit
  rw [hpr]

theorem pySplit_exists_cons (sep : Char) (s : List Char) :
    ∃ t ts, pySplit sep s = t :: ts := by
  induction s with
  | nil => exact ⟨[], [], rfl⟩
  | cons c rest ih =>
    obtain ⟨t, ts, hpr⟩ := ih
    rw [pySplit_cons sep c rest t ts hpr]
    by_cases hc : c = sep
    · rw [if_pos hc]
      exact ⟨[], t :: ts, rfl⟩
    · rw [if_neg hc]
      exact ⟨c :: t, ts, rfl⟩

theorem takeWhile_append_stop (q : Char → Bool) (l : List Char) (c : Char)
    (hq : q c = false) (l2 : List Char) :
    (l ++ c :: l2).takeWhile q = l.takeWhile q := by
  induction l with
  | nil => simp [List.takeWhile_cons, hq]
  | cons a l ih =>
    by_cases ha : q a = true
    · simp [List.takeWhile_cons, ha, ih]
    · simp [List.takeWhile_cons, ha]

theorem takeWhile_append_all (q : Char → Bool) (l : List Char)
    (hall : ∀ a ∈ l, q a = true) (l2 : List Char) :
    (l ++ l2).takeWhile q = l ++ l2.takeWhile q := by
  induction l with
  | nil => simp
  | cons a l ih =>
    have ha : q a = true := hall a (List.mem_cons_self a l)
    simp only [List.cons_append, List.takeWhile_cons, ha, if_true]
    rw [ih (fun b hb => hall b (List.mem_cons_of_mem a hb))]

theorem takeWhile_append_of_mem_neg (q : Char → Bool) (l l2 : List Char)
    (h : ∃ a ∈ l, q a = false) :
    (l ++ l2).takeWhile q = l.takeWhile q := by
  induction l with
  | nil =>
    rcases h with ⟨a, ha, _⟩
    cases ha
  | cons a l ih =>
    by_cases ha : q a = true
    · have h2 : ∃ b ∈ l, q b = false := by
        rcases h with ⟨b, hb, hqb⟩
        rcases List.mem_cons.mp hb with rfl | hb2
        · rw [ha] at hqb
          cases hqb
        · exact ⟨b, hb2, hqb⟩
      simp [List.takeWhile_cons, ha, ih h2]
    · simp [List.takeWhile_cons, ha]

theorem pySplit_headD (sep : Char) (s : List Char) :
    (pySplit sep s).headD [] = s.takeWhile (fun c => c ≠ sep) := by
  induction s with
  | nil => simp [pySplit]
  | cons c rest ih =>
    obtain ⟨t, ts, hpr⟩ := pySplit_exists_cons sep rest
    rw [pySplit_cons sep c rest t ts hpr]
    rw [hpr] at ih
    by_cases hc : c = sep
    · subst hc
      rw [if_pos rfl, List.takeWhile_cons]
      simp
    · rw [if_neg hc, List.takeWhile_cons]
      have hq : decide (c ≠ sep) = true := by simp [hc]
      rw [hq, if_pos rfl]
      simp only [List.headD_cons] at ih ⊢
      rw [ih]

theorem pySplit_no_sep (sep : Char) (s : List Char) (h : sep ∉ s) :
    pySplit sep s = [s] := by
  induction s with
  | nil => rfl
  | cons c rest ih =>
    have hc : c ≠ sep := fun hceq => h (hceq ▸ List.mem_cons_self c rest)
    have hrest : sep ∉ rest := fun hm => h (List.mem_cons_of_mem c hm)
    rw [pySplit_cons sep c rest rest [] (ih hrest), if_neg hc]

theorem pySplit_two_of_mem (sep : Char) (s : List Char) (h : sep ∈ s) :
    2 ≤ (pySplit sep s).length := by
  induction s with
  | nil => cases h
  | cons c rest ih =>
    obtain ⟨t, ts, hpr⟩ := pySplit_exists_cons sep rest
    rw [pySplit_cons sep c rest t ts hpr]
    by_cases hc : c = sep
    · rw [if_pos hc]
      simp
    · rw [if_neg hc]
      have hm : sep ∈ rest := by
        rcases List.mem_cons.mp h with rfl | hm
        · exact absurd rfl hc
        · exact hm
      have h2 := ih hm
      rw [hpr] at h2
      simpa using h2

theorem pySplit_getLastD (sep : Char) (s : List Char) :
    (pySplit sep s).getLastD [] =
      (s.reverse.takeWhile (fun c => c ≠ sep)).reverse := by
  induction s with
  | nil => simp [pySplit]
  | cons c rest ih =>
    obtain ⟨t, ts, hpr⟩ := pySplit_exists_cons sep rest
    rw [pySplit_cons sep c rest t ts hpr, List.reverse_cons]
    rw [hpr] at ih
    by_cases hc : c = sep
    · subst hc
      rw [if_pos rfl, List.getLastD_cons, ih,
        takeWhile_append_stop _ _ _ (by simp) []]
    · rw [if_neg hc]
      cases ts with
      | nil =>
        have hnmem : sep ∉ rest := by
          intro hm
          have h2 := pySplit_two_of_mem sep rest hm
          rw [hpr] at h2
          simp at h2
        have ht : t = rest := by
          have hsing := pySplit_no_sep sep rest hnmem
          rw [hpr] at hsing
          simpa using hsing
        subst ht
        simp only [List.getLastD_cons]
        rw [takeWhile_append_all _ _
          (fun a ha => by
            simp only [decide_eq_true_eq]
            exact fun haeq => hnmem (haeq ▸ (List.mem_reverse.mp ha)))
          [c]]
        rw [List.takeWhile_cons]
        have hq : decide (c ≠ sep) = true := by simp [hc]
        rw [hq, if_pos rfl]
        simp
      | cons t2 ts2 =>
        have hm : sep ∈ rest := by
          by_contra hn
          have hsing := pySplit_no_sep sep rest hn
          rw [hpr] at hsing
          simp at hsing
        rw [List.getLastD_cons, List.getLastD_cons]
        rw [List.getLastD_cons, List.getLastD_cons] at ih
        rw [ih, takeWhile_append_of_mem_neg _ _ _
          ⟨sep, List.mem_reverse.mpr hm, by simp⟩]

/-- ASCII lowering of one character, as Python str.lower acts on the
characters appearing in URLs. -/
def pyLowerChar (c : Char) : Char :=
  if 'A' ≤ c ∧ c ≤ 'Z' then Char.ofNat (c.toNat + 32) else c

/-- Python str.lower over a character list. -/
def pyLower (s : List Char) : List Char := s.map pyLowerChar

/-- Embedding of url.split("/")[-1].split("_")[0][:8] from
save_generated_images. -/
def fluxId (url : Url) : Url :=
  ((pySplit '_' ((pySplit '/' url).getLastD [])).headD []).take 8

/-- Embedding of url.split(".")[-1].lower() from save_generated_images. -/
def extOf (url : Url) : Url :=
  pyLower ((pySplit '.' url).getLastD [])

/-- POSIX os.path.join for two components: an absolute second component
wins; otherwise a single separator is placed between the components
unless one is already there. -/
def pyJoin (a b : Url) : Url :=
  if b.headD ' ' = '/' then b
  else if a = [] then b
  else if a.getLastD ' ' = '/' then a ++ b
  else a ++ '/' :: b

/-- The destination filename derived in save_generated_images:
os.path.join of the output directory and the id dot extension. -/
def deriveFname (out_dir url : Url) : Url :=
  pyJoin out_dir (fluxId url ++ '.' :: extOf url)

/-- Spec-side reading: the final path segment of a URL, the characters
after the last slash. -/
def lastPathSegment (url : Url) : Url :=
  (url.reverse.takeWhile (fun c => c ≠ '/')).reverse

/-- Spec-side reading: the token preceding the first underscore. -/
def tokenBeforeUnderscore (s : Url) : Url :=
  s.takeWhile (fun c => c ≠ '_')

/-- Spec-side reading: the first 8 characters of the token preceding the
first underscore in the final path segment. -/
def specId (url : Url) : Url :=
  (tokenBeforeUnderscore (lastPathSegment url)).take 8

/-- Spec-side reading: the file extension of a URL, the characters after
the last dot. -/
def fileExtension (url : Url) : Url :=
  (url.reverse.takeWhile (fun c => c ≠ '.')).reverse

/-- C9 (amended): the derived local filename joins the output directory
with id dot ext, where id is the first 8 characters of the token
preceding the first underscore in the final path segment of the URL and
ext is the file extension of the URL folded to lowercase; being a
function of the URL, the derivation maps a repeated URL to the same
path. -/
theorem deriveFname_spec (out_dir url : Url) :
    deriveFname out_dir url =
      pyJoin out_dir (specId url ++ '.' :: pyLower (fileExtension url)) := by
  unfold deriveFname fluxId extOf specId tokenBeforeUnderscore
    lastPathSegment fileExtension
  rw [pySplit_getLastD, pySplit_getLastD, pySplit_headD]

/-- C9 counterexample: for a URL with an uppercase extension the derived
name carries the lowercased extension png, not the literal URL extension
PNG as the claim words it. -/
theorem deriveFname_uppercase_ext_counterexample :
    deriveFname ("out".toList) ("h/AB_1.PNG".toList) =
      ("out/AB.png".toList) ∧
    fileExtension ("h/AB_1.PNG".toList) = ("PNG".toList) ∧
    ("out/AB.png".toList : Url) ≠ ("out/AB.PNG".toList) := by
  refine ⟨by decide, by decide, by decide⟩

/-- A generation result record: the images key, when present, holds the
list of media URLs. An absent record models both None and a response
without an images field. -/
structure ResultRec where
  images : Option (List Url)

/-- The observable filesystem activity of one save_generated_images call:
whether the output directory was created and which (url, fname) downloads
were issued. -/
structure SaveEffects where
  madeDir : Bool
  downloads : List (Url × Url)

/-- Embedding of save_generated_images: guard on a missing result or
missing images key before any filesystem activity; otherwise create the
directory, derive one filename per media descriptor, download all pairs
concurrently, and return the first entry of the outcome list (None when
the list is empty). -/
def save_generated_images (status : Url → ℕ) (result : Option ResultRec)
    (out_dir : Url) : Option Url × SaveEffects :=
  match result with
  | none => (none, ⟨false, []⟩)
  | some r =>
    match r.images with
    | none => (none, ⟨false, []⟩)
    | some urls =>
      let urls_and_files := urls.map (fun u => (u, deriveFname out_dir u))
      let downloaded := download_all_images status urls_and_files
      (downloaded.headD none, ⟨true, urls_and_files⟩)

/-- C5 (amended): the per-result save returns the outcome of the first
download task — the first media descriptor's destination path when that
fetch succeeded, and an absent value when the images list is empty or the
first fetch failed, regardless of later descriptors' outcomes. -/
theorem save_generated_images_first_outcome (status : Url → ℕ)
    (urls : List Url) (out_dir : Url) :
    (save_generated_images status (some ⟨some urls⟩) out_dir).1 =
      match urls with
      | [] => none
      | u :: _ => download_image status u (deriveFname out_dir u) := by
  cases urls <;> rfl

/-- C5 counterexample: with two media descriptors where the first fetch
fails and the second succeeds, the save returns an absent value although a
download succeeded, refuting the claim that an absent value is returned
only when no download succeeded. -/
theorem save_generated_images_first_success_counterexample :
    (save_generated_images
        (fun u => if u = "b_2.png".toList then 200 else 404)
        (some ⟨some ["a_1.png".toList, "b_2.png".toList]⟩)
        ("o".toList)).1 = none ∧
    (download_all_images
        (fun u => if u = "b_2.png".toList then 200 else 404)
        ((save_generated_images
          (fun u => if u = "b_2.png".toList then 200 else 404)
          (some ⟨some ["a_1.png".toList, "b_2.png".toList]⟩)
          ("o".toList)).2.downloads)).any (fun o => o.isSome) = true := by
  exact ⟨by decide, by decide⟩

/-- C10: a missing result record or one without an images key makes the
save return an absent value with no filesystem activity at all; an empty
images list likewise returns an absent value and issues no downloads. -/
theorem save_generated_images_guard_spec (status : Url → ℕ)
    (out_dir : Url) :
    save_generated_images status none out_dir =
      (none, ⟨false, []⟩) ∧
    save_generated_images status (some ⟨none⟩) out_dir =
      (none, ⟨false, []⟩) ∧
    (save_generated_images status (some ⟨some []⟩) out_dir).1 = none ∧
    (save_generated_images status (some ⟨some []⟩) out_dir).2.downloads =
      [] := by
  exact ⟨rfl, rfl, rfl, rfl⟩

/-- JSON values, as written by the metadata persistence. -/
inductive Json where
  | null
  | bool (b : Bool)
  | num (n : Int)
  | str (s : String)
  | arr (xs : List Json)
  | obj (fields : List (String × Json))

mutual

/-- Rendering of a JSON value to text, modelling json.dumps: the exact
whitespace of indent=4 is irrelevant to the claims, the bracket structure
and nonemptiness are preserved. -/
def dumps : Json → String
  | Json.null => "null"
  | Json.bool true => "true"
  | Json.bool false => "false"
  | Json.num n => toString n
  | Json.str s => "\"" ++ s ++ "\""
  | Json.arr xs => "[" ++ dumpsList xs ++ "]"
  | Json.obj fs => "\x7b" ++ dumpsFields fs ++ "\x7d"

/-- Comma-separated rendering of array elements. -/
def dumpsList : List Json → String
  | [] => ""
  | [x] => dumps x
  | x :: y :: xs => dumps x ++ ", " ++ dumpsList (y :: xs)

/-- Comma-separated rendering of object fields. -/
def dumpsFields : List (String × Json) → String
  | [] => ""
  | [(k, v)] => "\"" ++ k ++ "\": " ++ dumps v
  | (k, v) :: f :: fs =>
    "\"" ++ k ++ "\": " ++ dumps v ++ ", " ++ dumpsFields (f :: fs)

end

/-- Contents of one file in the output directory: either opaque bytes of
a given size (downloaded media) or a JSON document whose on-disk size is
the length of its rendering. -/
inductive FileContent where
  | bytes (size : ℕ)
  | jsonDoc (j : Json)

/-- The size in bytes that os.path.getsize reports for a file. -/
def fileSize : FileContent → ℕ
  | FileContent.bytes n => n
  | FileContent.jsonDoc j => (dumps j).length

/-- Reading a file back with json.loads: succeeds exactly on a JSON
document and returns the value that was serialized. -/
def loads : FileContent → Option Json
  | FileContent.bytes _ => none
  | FileContent.jsonDoc j => some j

/-- Embedding of cleanup: write the full result list to metadata.json in
the output directory in one write, then walk the directory and remove
every file whose size is zero. The filesystem is the list of files under
the output directory, keyed by path. -/
def cleanup (results : List Json) (fs : List (String × FileContent)) :
    List (String × FileContent) :=
  (dictSet fs "metadata.json"
      (FileContent.jsonDoc (Json.arr results))).filter
    (fun p => fileSize p.2 ≠ 0)

theorem dumps_arr_length_pos (xs : List Json) :
    0 < (dumps (Json.arr xs)).length := by
  simp only [dumps, String.length_append]
  have h1 : "[".length = 1 := rfl
  omega

theorem dictSet_mem_self {β : Type} (d : List (String × β)) (k : String)
    (v : β) : (k, v) ∈ dictSet d k v := by
  unfold dictSet
  split
  · rename_i h
    rw [List.any_eq_true] at h
    obtain ⟨p, hp, hpk⟩ := h
    rw [List.mem_map]
    refine ⟨p, hp, ?_⟩
    rw [if_pos (of_decide_eq_true hpk)]
  · exact List.mem_append_right _ (List.mem_singleton.mpr rfl)

theorem dictSet_key_unique {β : Type} (d : List (String × β)) (k : String)
    (v : β) : ∀ p ∈ dictSet d k v, p.1 = k → p.2 = v := by
  intro p hp hpk
  unfold dictSet at hp
  split at hp
  · rw [List.mem_map] at hp
    obtain ⟨q, hq, hqe⟩ := hp
    by_cases hqk : q.1 = k
    · rw [if_pos hqk] at hqe
      rw [← hqe]
    · rw [if_neg hqk] at hqe
      rw [← hqe] at hpk
      exact absurd hpk hqk
  · rename_i h
    rcases List.mem_append.mp hp with hin | hin
    · exact absurd (List.any_eq_true.mpr ⟨p, hin, by simp [hpk]⟩) h
    · rw [List.mem_singleton.mp hin]

theorem getVal_filter_of_unique {β : Type} (l : List (String × β))
    (k : String) (v : β) (q : String × β → Bool)
    (hall : ∀ p ∈ l, p.1 = k → p.2 = v) (hex : (k, v) ∈ l)
    (hq : q (k, v) = true) :
    getVal (l.filter q) k = some v := by
  induction l with
  | nil => cases hex
  | cons p rest ih =>
    by_cases hqp : q p = true
    · rw [List.filter_cons_of_pos hqp]
      by_cases hpk : p.1 = k
      · have hpv : p.2 = v := hall p (List.mem_cons_self p rest) hpk
        simp [getVal, hpk, hpv]
      · simp only [getVal, hpk, if_false]
        apply ih (fun p2 h2 => hall p2 (List.mem_cons_of_mem p h2))
        rcases List.mem_cons.mp hex with heq | hin
        · exact absurd (by rw [← heq]) hpk
        · exact hin
    · rw [List.filter_cons_of_neg hqp]
      apply ih (fun p2 h2 => hall p2 (List.mem_cons_of_mem p h2))
      rcases List.mem_cons.mp hex with heq | hin
      · exact absurd (heq ▸ hq) hqp
      · exact hin

/-- C6: after cleanup, metadata.json holds the serialized ordered result
list written in one write, reading it back yields exactly that list, and
no zero-size file remains anywhere under the output directory. -/
theorem cleanup_spec (results : List Json)
    (fs : List (String × FileContent)) :
    getVal (cleanup results fs) "metadata.json" =
      some (FileContent.jsonDoc (Json.arr results)) ∧
    (getVal (cleanup results fs) "metadata.json").bind loads =
      some (Json.arr results) ∧
    (∀ p, p ∈ cleanup results fs → fileSize p.2 ≠ 0) := by
  have h1 : getVal (cleanup results fs) "metadata.json" =
      some (FileContent.jsonDoc (Json.arr results)) := by
    unfold cleanup
    apply getVal_filter_of_unique _ _ _ _
      (dictSet_key_unique fs "metadata.json" _)
      (dictSet_mem_self fs "metadata.json" _)
    have hpos := dumps_arr_length_pos results
    simp only [fileSize, decide_eq_true_eq]
    omega
  refine ⟨h1, by rw [h1]; rfl, ?_⟩
  intro p hp
  have hkeep := List.of_mem_filter hp
  simpa using hkeep

/-- Witness for the C6 theorem on a concrete two-file directory with one
zero-byte artifact. -/
theorem cleanup_spec_witness :
    getVal (cleanup [] [("old.png", FileContent.bytes 0),
        ("img.png", FileContent.bytes 5)]) "metadata.json" =
      some (FileContent.jsonDoc (Json.arr [])) ∧
    fileSize (FileContent.bytes 5) ≠ 0 := by
  constructor
  · exact (cleanup_spec [] [("old.png", FileContent.bytes 0),
      ("img.png", FileContent.bytes 5)]).1
  · apply (cleanup_spec [] [("old.png", FileContent.bytes 0),
      ("img.png", FileContent.bytes 5)]).2.2 ("img.png", FileContent.bytes 5)
    unfold cleanup dictSet
    rw [if_neg (by decide)]
    apply List.mem_filter.mpr
    constructor
    · exact List.mem_cons_of_mem _ (List.mem_cons_self _ _)
    · decide

end Flux
